import Mathlib

/-!
Shallow embedding of the lookup-table parsing engine of `src/src/lookup.rs`
(the generic DWARF "accelerated access" reader: `DebugLookup`,
`LookupEntryIter`, `PubStuffParser`), together with a model of the byte
cursor (`Reader`) and of `parse_initial_length`, which live outside the
given sources and are therefore modelled from the specification.

Bytes are `Nat`s (a well-formed buffer has every byte `< 256`); machine
integers are `Nat` (all the fields involved are unsigned).  Rust's `&mut R`
arguments are modelled by explicit state passing: an operation that mutates
its cursor returns the updated cursor, and a fallible compound operation
returns the cursor as mutated up to the point of failure, mirroring the
in-place mutation that a Rust early return leaves behind.
-/

namespace Gimli

/-- Modelled from the spec: the decode-error kinds of §7 (`UnknownVersion`,
`UnexpectedEof`, `MissingNullTerminator`); the `Error` type itself is an
external collaborator imported by `lookup.rs`. -/
inductive Error where
  | UnknownVersion
  | UnexpectedEof
  | MissingNullTerminator
deriving DecidableEq, Repr

/-- Modelled from the spec: the compact / extended format tag of §6
(`Format` is imported by `lookup.rs` from the parser module). -/
inductive Format where
  | Dwarf32
  | Dwarf64
deriving DecidableEq, Repr

/-- Byte width of a "word" field under the given format tag
(compact → 4 bytes, extended → 8 bytes, spec §6). -/
def Format.wordSize : Format → Nat
  | .Dwarf32 => 4
  | .Dwarf64 => 8

/-- Modelled from the spec: the cursor contract of §2.1/§6 — an owned,
cloneable, sliceable view over bytes.  The `Reader` trait itself is an
external collaborator imported by `lookup.rs`. -/
structure Reader where
  data : List Nat
deriving DecidableEq, Repr

namespace Reader

/-- Modelled from the spec: emptiness test of the cursor contract. -/
def is_empty (r : Reader) : Bool :=
  r.data.isEmpty

/-- Modelled from the spec: force-to-empty (truncate-to-end) of the cursor
contract; `lookup.rs` calls this `input.empty()`. -/
def empty (_r : Reader) : Reader :=
  ⟨[]⟩

/-- Little-endian value of a byte list (byte 0 is least significant). -/
def decodeLE : List Nat → Nat
  | [] => 0
  | b :: bs => b + 256 * decodeLE bs

/-- Modelled from the spec: read the first `n` bytes, advancing the cursor;
a truncated read fails with `UnexpectedEof` and leaves the cursor unchanged. -/
def readBytes (r : Reader) (n : Nat) : Except Error (List Nat × Reader) :=
  if n ≤ r.data.length then
    .ok (r.data.take n, ⟨r.data.drop n⟩)
  else
    .error .UnexpectedEof

/-- Modelled from the spec: fixed-width unsigned integer read (width `n`
bytes) in little-endian byte order. -/
def readUint (r : Reader) (n : Nat) : Except Error (Nat × Reader) :=
  match r.readBytes n with
  | .error e => .error e
  | .ok (bs, r1) => .ok (decodeLE bs, r1)

/-- Modelled from the spec: the 2-byte unsigned read of the cursor contract. -/
def read_u16 (r : Reader) : Except Error (Nat × Reader) :=
  r.readUint 2

/-- Modelled from the spec: the 4-byte unsigned read of the cursor contract. -/
def read_u32 (r : Reader) : Except Error (Nat × Reader) :=
  r.readUint 4

/-- Modelled from the spec: the 8-byte unsigned read of the cursor contract. -/
def read_u64 (r : Reader) : Except Error (Nat × Reader) :=
  r.readUint 8

/-- Modelled from the spec: word read whose width is chosen by the format
tag (4 or 8 bytes). -/
def read_word (r : Reader) (format : Format) : Except Error (Nat × Reader) :=
  r.readUint format.wordSize

/-- Modelled from the spec: split off the first `n` bytes, returning a new
cursor over that region while the original advances past it; fails with
`UnexpectedEof` when fewer than `n` bytes remain. -/
def split (r : Reader) (n : Nat) : Except Error (Reader × Reader) :=
  if n ≤ r.data.length then
    .ok (⟨r.data.take n⟩, ⟨r.data.drop n⟩)
  else
    .error .UnexpectedEof

/-- Modelled from the spec: null-terminated byte-slice read — returns the
bytes before the first zero byte and advances past the terminator; fails
with `MissingNullTerminator` (cursor unchanged) when no zero byte remains. -/
def read_null_terminated_slice (r : Reader) : Except Error (Reader × Reader) :=
  match r.data.findIdx? (· = 0) with
  | none => .error .MissingNullTerminator
  | some i => .ok (⟨r.data.take i⟩, ⟨r.data.drop (i + 1)⟩)

end Reader

/-- Modelled from the spec: the length-prefix decoder of §6 — either a
4-byte value (compact tag) or the reserved 4-byte marker `0xffffffff`
followed by an 8-byte value (extended tag).  `parse_initial_length` is
imported by `lookup.rs` from the parser module.  On failure the cursor is
returned as mutated so far (Rust `&mut` early return). -/
def parse_initial_length (input : Reader) :
    Except Error (Nat × Format) × Reader :=
  match input.read_u32 with
  | .error e => (.error e, input)
  | .ok (len, input1) =>
    if len = 0xffffffff then
      match input1.read_u64 with
      | .error e => (.error e, input1)
      | .ok (len64, input2) => (.ok (len64, .Dwarf64), input2)
    else
      (.ok (len, .Dwarf32), input1)

/-- Modelled from the spec: the decoded Set header of §3 — format tag,
total set length, version, back-reference offset and back-reference length
(the concrete `Switch::Header` type is built by `NamesOrTypesSwitch::new_header`,
an external collaborator of `lookup.rs`). -/
structure Header where
  format : Format
  set_length : Nat
  version : Nat
  info_offset : Nat
  info_length : Nat
deriving DecidableEq, Repr

/-- Modelled from the spec: one decoded record of §3 — a back-reference
offset, a borrowed name view, and the owning header (built by
`NamesOrTypesSwitch::new_entry`). -/
structure Entry where
  offset : Nat
  name : Reader
  unit_header : Header
deriving DecidableEq, Repr

namespace Switch

/-- Modelled from the spec: `NamesOrTypesSwitch::new_header` — construct a
header from its decoded fields (§4.4). -/
def new_header (format : Format) (set_length : Nat) (version : Nat)
    (offset : Nat) (length : Nat) : Header :=
  ⟨format, set_length, version, offset, length⟩

/-- Modelled from the spec: `NamesOrTypesSwitch::new_entry` — construct an
entry from a raw offset, a name view, and the owning header (§4.4). -/
def new_entry (offset : Nat) (name : Reader) (header : Header) : Entry :=
  ⟨offset, name, header⟩

/-- Modelled from the spec: `NamesOrTypesSwitch::parse_offset` — decode one
back-reference offset from the cursor given the active format tag (§4.4/§6:
4 or 8 bytes per tag). -/
def parse_offset (input : Reader) (format : Format) :
    Except Error (Nat × Reader) :=
  input.read_word format

/-- Modelled from the spec: `NamesOrTypesSwitch::format_from` — recover the
format tag from an already-built header (§4.4). -/
def format_from (header : Header) : Format :=
  header.format

end Switch

namespace PubStuffParser

/-- `PubStuffParser::parse_header` (src/src/lookup.rs lines 142–155):
reads the initial length and format tag, splits off exactly `set_length`
bytes into `rest`, checks `version == 2`, reads the back-reference offset
and length from `rest`, and returns `(rest, header)` together with the
input cursor advanced past this Set.  On failure the second component is
the input cursor as mutated so far (Rust `&mut` early return). -/
def parse_header (input : Reader) :
    Except Error (Reader × Header) × Reader :=
  match parse_initial_length input with
  | (.error e, input1) => (.error e, input1)
  | (.ok (set_length, format), input1) =>
    match input1.split set_length with
    | .error e => (.error e, input1)
    | .ok (rest, input2) =>
      match rest.read_u16 with
      | .error e => (.error e, input2)
      | .ok (version, rest1) =>
        if version ≠ 2 then
          (.error .UnknownVersion, input2)
        else
          match Switch.parse_offset rest1 format with
          | .error e => (.error e, input2)
          | .ok (info_offset, rest2) =>
            match rest2.read_word format with
            | .error e => (.error e, input2)
            | .ok (info_length, rest3) =>
              (.ok (rest3,
                    Switch.new_header format set_length version
                      info_offset info_length),
               input2)

/-- `PubStuffParser::parse_entry` (src/src/lookup.rs lines 158–168):
reads one offset word (width per the header's format tag); a zero offset
forces the cursor empty and yields no entry; a non-zero offset is followed
by a null-terminated name and yields an entry.  The second component is
the entry cursor as mutated so far (Rust `&mut` early return). -/
def parse_entry (input : Reader) (header : Header) :
    Except Error (Option Entry) × Reader :=
  match input.read_word (Switch.format_from header) with
  | .error e => (.error e, input)
  | .ok (offset, input1) =>
    if offset = 0 then
      (.ok none, input1.empty)
    else
      match input1.read_null_terminated_slice with
      | .error e => (.error e, input1)
      | .ok (name, input2) =>
        (.ok (some (Switch.new_entry offset name header)), input2)

end PubStuffParser

theorem Reader.readBytes_eq {r : Reader} {n : Nat} {bs : List Nat}
    {r1 : Reader} (h : r.readBytes n = .ok (bs, r1)) :
    bs = r.data.take n ∧ r1.data = r.data.drop n ∧ n ≤ r.data.length := by
  unfold Reader.readBytes at h
  split at h
  · rename_i hle
    simp only [Except.ok.injEq, Prod.mk.injEq] at h
    obtain ⟨h1, h2⟩ := h
    exact ⟨h1.symm, by rw [← h2], hle⟩
  · exact absurd h (by simp)

theorem Reader.readUint_length {r : Reader} {n v : Nat} {r1 : Reader}
    (h : r.readUint n = .ok (v, r1)) :
    r1.data.length + n = r.data.length := by
  unfold Reader.readUint at h
  split at h
  · simp_all
  · rename_i bs r2 heq
    obtain ⟨-, hdrop, hle⟩ := Reader.readBytes_eq heq
    simp only [Except.ok.injEq, Prod.mk.injEq] at h
    obtain ⟨-, h2⟩ := h
    subst h2
    rw [hdrop]
    simp only [List.length_drop]
    omega

theorem Reader.split_eq {r : Reader} {n : Nat} {a b : Reader}
    (h : r.split n = .ok (a, b)) :
    a.data = r.data.take n ∧ b.data = r.data.drop n ∧ n ≤ r.data.length := by
  unfold Reader.split at h
  split at h
  · rename_i hle
    simp only [Except.ok.injEq, Prod.mk.injEq] at h
    obtain ⟨h1, h2⟩ := h
    exact ⟨by rw [← h1], by rw [← h2], hle⟩
  · exact absurd h (by simp)

theorem parse_initial_length_length {input : Reader} {L : Nat} {f : Format}
    {input1 : Reader}
    (h : parse_initial_length input = (.ok (L, f), input1)) :
    input1.data.length + 4 ≤ input.data.length := by
  unfold parse_initial_length at h
  split at h
  · simp_all
  · rename_i v r1 heq
    have h1 : r1.data.length + 4 = input.data.length :=
      Reader.readUint_length heq
    split at h
    · split at h
      · simp_all
      · rename_i v2 r2 heq2
        have h2 : r2.data.length + 8 = r1.data.length :=
          Reader.readUint_length heq2
        simp only [Prod.mk.injEq] at h
        obtain ⟨-, h4⟩ := h
        subst h4
        omega
    · simp only [Prod.mk.injEq] at h
      obtain ⟨-, h4⟩ := h
      subst h4
      omega

theorem parse_header_shrinks {input rest : Reader} {h : Header}
    {input2 : Reader}
    (heq : PubStuffParser.parse_header input = (.ok (rest, h), input2)) :
    input2.data.length < input.data.length := by
  unfold PubStuffParser.parse_header at heq
  split at heq
  · simp_all
  · rename_i L f input1 hpil
    have h1 : input1.data.length + 4 ≤ input.data.length :=
      parse_initial_length_length hpil
    split at heq
    · simp_all
    · rename_i rest0 inp2 hsplit
      obtain ⟨-, hdrop, hle⟩ := Reader.split_eq hsplit
      have h2 : inp2.data.length ≤ input1.data.length := by
        rw [hdrop, List.length_drop]; omega
      split at heq
      · simp_all
      · rename_i v rest1 hu16
        split at heq
        · exact absurd heq (by simp)
        · split at heq
          · simp_all
          · rename_i io rest2 hoff
            split at heq
            · simp_all
            · rename_i il rest3 hlen
              simp only [Prod.mk.injEq] at heq
              obtain ⟨-, h4⟩ := heq
              subst h4
              omega

/-- One pass over step 1 of the advance loop of `LookupEntryIter::next`
(src/src/lookup.rs lines 87–93): when a current Set with a non-empty cursor
is present, attempt `parse_entry`; an entry or an error is an immediate
result (`Sum.inl`), otherwise (`Sum.inr`) the loop falls through to the
remaining-input phase carrying the possibly updated current Set. -/
def entryStep (current_set : Option (Reader × Header))
    (remaining_input : Reader) :
    (Except Error (Option Entry) × Option (Reader × Header) × Reader) ⊕
      Option (Reader × Header) :=
  match current_set with
  | some (input, header) =>
    if input.is_empty then .inr (some (input, header))
    else
      match PubStuffParser.parse_entry input header with
      | (.error e, input1) =>
        .inl (.error e, some (input1, header), remaining_input)
      | (.ok (some entry), input1) =>
        .inl (.ok (some entry), some (input1, header), remaining_input)
      | (.ok none, input1) => .inr (some (input1, header))
  | none => .inr none

/-- The advance loop of `LookupEntryIter::next` (src/src/lookup.rs lines
86–99), with a fuel argument bounding the number of times the loop repeats
after installing a new Set; `nextLoop_isSome` below shows that fuel equal to
the length of the remaining input always suffices, so the fuel is purely a
termination device and never alters the computed result. -/
def nextLoop (fuel : Nat) (current_set : Option (Reader × Header))
    (remaining_input : Reader) :
    Option (Except Error (Option Entry) × Option (Reader × Header) × Reader) :=
  match entryStep current_set remaining_input with
  | .inl res => some res
  | .inr cs1 =>
    if remaining_input.is_empty then some (.ok none, none, remaining_input)
    else
      match PubStuffParser.parse_header remaining_input with
      | (.error e, rem1) => some (.error e, cs1, rem1)
      | (.ok set, rem1) =>
        match fuel with
        | 0 => none
        | fuel1 + 1 => nextLoop fuel1 (some set) rem1

theorem nextLoop_isSome (fuel : Nat) (cs : Option (Reader × Header))
    (rem : Reader) (hf : rem.data.length < fuel) :
    (nextLoop fuel cs rem).isSome := by
  induction fuel generalizing cs rem with
  | zero => omega
  | succ f ih =>
    unfold nextLoop
    split
    · simp
    · split
      · simp
      · split
        · simp
        · rename_i set rem1 hph
          obtain ⟨rest, hd⟩ := set
          have hlt : rem1.data.length < rem.data.length :=
            parse_header_shrinks hph
          exact ih (some (rest, hd)) rem1 (by omega)

/-- `LookupEntryIter` (src/src/lookup.rs lines 64–71): the scan state —
`current_set` is `none` only at the very beginning and end. -/
structure LookupEntryIter where
  current_set : Option (Reader × Header)
  remaining_input : Reader
deriving DecidableEq, Repr

/-- `LookupEntryIter::next` (src/src/lookup.rs lines 85–100): run the
advance loop with provably sufficient fuel. -/
def LookupEntryIter.next (it : LookupEntryIter) :
    Except Error (Option Entry) × LookupEntryIter :=
  let res := (nextLoop (it.remaining_input.data.length + 1) it.current_set
      it.remaining_input).get
    (nextLoop_isSome _ _ _ (Nat.lt_succ_self _))
  (res.1, ⟨res.2.1, res.2.2⟩)

/-- `DebugLookup` (src/src/lookup.rs lines 31–38): owns the section buffer. -/
structure DebugLookup where
  input_buffer : Reader
deriving DecidableEq, Repr

/-- `DebugLookup::items` (src/src/lookup.rs lines 56–61): a fresh iterator
with no current Set and a clone of the full input buffer (cloning a cursor
is a cheap view duplication, modelled as the value itself). -/
def DebugLookup.items (d : DebugLookup) : LookupEntryIter :=
  { current_set := none, remaining_input := d.input_buffer }

/-- Result of the `(k+1)`-st call to `next`, starting from iterator state
`it` and threading the mutated state through the earlier calls. -/
def iterResults : LookupEntryIter → Nat → Except Error (Option Entry)
  | it, 0 => it.next.1
  | it, k + 1 => iterResults it.next.2 k

/-- Little-endian encoding of `v` on `n` bytes (least significant first). -/
def leBytes : Nat → Nat → List Nat
  | 0, _ => []
  | n + 1, v => v % 256 :: leBytes n (v / 256)

theorem leBytes_length (n v : Nat) : (leBytes n v).length = n := by
  induction n generalizing v with
  | zero => rfl
  | succ n ih => simp [leBytes, ih]

theorem decodeLE_leBytes {n v : Nat} (h : v < 256 ^ n) :
    Reader.decodeLE (leBytes n v) = v := by
  induction n generalizing v with
  | zero =>
    have h0 : v = 0 := Nat.lt_one_iff.mp (by simpa using h)
    simp [leBytes, Reader.decodeLE, h0]
  | succ n ih =>
    have hdiv : v / 256 < 256 ^ n := by
      rw [Nat.div_lt_iff_lt_mul (by norm_num)]
      calc v < 256 ^ (n + 1) := h
        _ = 256 ^ n * 256 := by ring
    simp only [leBytes, Reader.decodeLE, ih hdiv]
    omega

theorem Reader.readBytes_append (bs rest : List Nat) :
    Reader.readBytes ⟨bs ++ rest⟩ bs.length = .ok (bs, ⟨rest⟩) := by
  unfold Reader.readBytes
  rw [if_pos (by simp)]
  simp

theorem Reader.readUint_leBytes {n v : Nat} (rest : List Nat)
    (h : v < 256 ^ n) :
    Reader.readUint ⟨leBytes n v ++ rest⟩ n = .ok (v, ⟨rest⟩) := by
  unfold Reader.readUint
  have hb := Reader.readBytes_append (leBytes n v) rest
  rw [leBytes_length] at hb
  rw [hb]
  simp [decodeLE_leBytes h]

theorem Reader.read_word_leBytes {f : Format} {v : Nat} (rest : List Nat)
    (h : v < 256 ^ f.wordSize) :
    Reader.read_word ⟨leBytes f.wordSize v ++ rest⟩ f = .ok (v, ⟨rest⟩) :=
  Reader.readUint_leBytes rest h

theorem findIdx_zero_append (tail : List Nat) :
    ∀ (name : List Nat), (∀ b ∈ name, b ≠ 0) → ∀ i,
      (name ++ 0 :: tail).findIdx? (· = 0) i = some (name.length + i) := by
  intro name
  induction name with
  | nil => intro h i; simp [List.findIdx?]
  | cons b bs ih =>
    intro h i
    have hb : b ≠ 0 := h b (by simp)
    have hbs : ∀ x ∈ bs, x ≠ 0 := fun x hx => h x (by simp [hx])
    rw [List.cons_append]
    rw [show ((b :: (bs ++ 0 :: tail)).findIdx? (· = 0) i) =
          if b = 0 then some i
          else ((bs ++ 0 :: tail).findIdx? (· = 0) (i + 1)) by
        simp [List.findIdx?]]
    rw [if_neg hb, ih hbs (i + 1)]
    simp only [List.length_cons, Option.some.injEq]
    omega

theorem Reader.read_null_terminated_slice_append {name : List Nat}
    (tail : List Nat) (h : ∀ b ∈ name, b ≠ 0) :
    Reader.read_null_terminated_slice ⟨name ++ 0 :: tail⟩ =
      .ok (⟨name⟩, ⟨tail⟩) := by
  unfold Reader.read_null_terminated_slice
  rw [show (name ++ 0 :: tail).findIdx? (· = 0) = some name.length from by
    simpa using findIdx_zero_append tail name h 0]
  simp

theorem Reader.read_null_terminated_slice_shrinks {r name r1 : Reader}
    (h : r.read_null_terminated_slice = .ok (name, r1)) :
    r1.data.length < r.data.length := by
  unfold Reader.read_null_terminated_slice at h
  split at h
  · simp_all
  · rename_i i hfind
    have hne : r.data ≠ [] := by
      intro hnil
      rw [hnil] at hfind
      simp [List.findIdx?] at hfind
    simp only [Except.ok.injEq, Prod.mk.injEq] at h
    obtain ⟨-, h2⟩ := h
    subst h2
    simp only [List.length_drop]
    have : 0 < r.data.length := List.length_pos.mpr hne
    omega

/-- `next` is the fuel-run of the loop, so a computed loop result determines
the call's result and the successor state. -/
theorem next_eq_of_nextLoop {it : LookupEntryIter}
    {r : Except Error (Option Entry)} {cs : Option (Reader × Header)}
    {rem : Reader}
    (h : nextLoop (it.remaining_input.data.length + 1) it.current_set
        it.remaining_input = some (r, cs, rem)) :
    it.next = (r, ⟨cs, rem⟩) := by
  simp only [LookupEntryIter.next, h, Option.get_some]

theorem Option.fst_get_eq {α β : Type} {o o' : Option (α × β)}
    (h1 : o.isSome) (h2 : o'.isSome)
    (h : o.map Prod.fst = o'.map Prod.fst) :
    (o.get h1).1 = (o'.get h2).1 := by
  cases o with
  | none => simp at h1
  | some v =>
    cases o' with
    | none => simp at h2
    | some v' => simpa using h

theorem Reader.split_append (bs rest : List Nat) :
    Reader.split ⟨bs ++ rest⟩ bs.length = .ok (⟨bs⟩, ⟨rest⟩) := by
  unfold Reader.split
  rw [if_pos (by simp)]
  simp

theorem Format.wordSize_pos (f : Format) : 0 < f.wordSize := by
  cases f <;> simp [Format.wordSize]

theorem Reader.readBytes_error {r : Reader} {n : Nat} {e : Error}
    (h : r.readBytes n = .error e) : e = .UnexpectedEof := by
  unfold Reader.readBytes at h
  split at h <;> simp_all

theorem Reader.readUint_error {r : Reader} {n : Nat} {e : Error}
    (h : r.readUint n = .error e) : e = .UnexpectedEof := by
  unfold Reader.readUint at h
  split at h
  · rename_i e' heq
    have he : e' = e := by simp_all
    exact he ▸ Reader.readBytes_error heq
  · simp_all

/-- The hand-built well-formed buffer of the round-trip property: two
compact-format version-2 Sets, Set A with entries `(0x10, "alpha")` and
`(0x20, "beta")` (set length 33, back reference `0x44`/`0x55`), Set B with
entry `(0x30, "gamma")` (set length 24, back reference `0x66`/`0x77`),
each entry stream closed by the zero sentinel word. -/
def twoSetBuffer : List Nat :=
  [0x21, 0, 0, 0] ++
    [2, 0] ++ [0x44, 0, 0, 0] ++ [0x55, 0, 0, 0] ++
    [0x10, 0, 0, 0] ++ [97, 108, 112, 104, 97, 0] ++
    [0x20, 0, 0, 0] ++ [98, 101, 116, 97, 0] ++
    [0, 0, 0, 0] ++
  [0x18, 0, 0, 0] ++
    [2, 0] ++ [0x66, 0, 0, 0] ++ [0x77, 0, 0, 0] ++
    [0x30, 0, 0, 0] ++ [103, 97, 109, 109, 97, 0] ++
    [0, 0, 0, 0]

/-- A buffer holding one well-formed compact version-2 Set header whose
entry region is a lone non-zero offset word (`0x01`) with no name bytes
after it: the first advance reads the word, then fails to find a null
terminator in the now-empty Set cursor. -/
def truncatedNameBuffer : List Nat :=
  [0x0e, 0, 0, 0] ++ [2, 0] ++ [0, 0, 0, 0] ++ [0, 0, 0, 0] ++ [1, 0, 0, 0]

/-- C2: Round-trip on well-formed input and order preservation — on the
hand-built two-Set compact version-2 buffer, successive advances of a fresh
iterator yield exactly the entries `(0x10, "alpha")` and `(0x20, "beta")`
of Set A and then `(0x30, "gamma")` of Set B, each carrying its correct
offset and its owning Set's header, followed by iteration complete
(`Ok none`), in on-disk order with all of Set A's entries before Set B's. -/
theorem round_trip_two_sets :
    iterResults (DebugLookup.items ⟨⟨twoSetBuffer⟩⟩) 0 =
      .ok (some (Switch.new_entry 0x10 ⟨[97, 108, 112, 104, 97]⟩
        (Switch.new_header .Dwarf32 33 2 0x44 0x55))) ∧
    iterResults (DebugLookup.items ⟨⟨twoSetBuffer⟩⟩) 1 =
      .ok (some (Switch.new_entry 0x20 ⟨[98, 101, 116, 97]⟩
        (Switch.new_header .Dwarf32 33 2 0x44 0x55))) ∧
    iterResults (DebugLookup.items ⟨⟨twoSetBuffer⟩⟩) 2 =
      .ok (some (Switch.new_entry 0x30 ⟨[103, 97, 109, 109, 97]⟩
        (Switch.new_header .Dwarf32 24 2 0x66 0x77))) ∧
    iterResults (DebugLookup.items ⟨⟨twoSetBuffer⟩⟩) 3 = .ok none ∧
    iterResults (DebugLookup.items ⟨⟨twoSetBuffer⟩⟩) 4 = .ok none :=
  ⟨rfl, rfl, rfl, rfl, rfl⟩

/-- C1: evaluation at the failing input — on `truncatedNameBuffer` the
first advance returns the decode error `MissingNullTerminator`, but the
second advance on the very same iterator returns successful completion
(`Ok none`) instead of replaying the error: the iterator stores no error,
so the sticky-error behavior documented on `LookupEntryIter::next`
(src/src/lookup.rs lines 79–82) does not hold. -/
theorem sticky_error_violation_at_truncated_name :
    iterResults (DebugLookup.items ⟨⟨truncatedNameBuffer⟩⟩) 0 =
      .error .MissingNullTerminator ∧
    iterResults (DebugLookup.items ⟨⟨truncatedNameBuffer⟩⟩) 1 = .ok none :=
  ⟨rfl, rfl⟩

/-- Advance the first iterator of a pair of iterators, leaving the second
alone: models one client stepping its iterator while another client holds
a second iterator over the same engine. -/
def advanceFst (p : LookupEntryIter × LookupEntryIter) :
    LookupEntryIter × LookupEntryIter :=
  (p.1.next.2, p.2)

/-- C9: Iterator independence — `items` returns a fresh iterator positioned
before any Set over the engine's own buffer view, and after any number of
advances of one iterator the other iterator obtained from the same engine
is unchanged as a value, so every result it would yield is unchanged;
`items` itself is a pure function of the engine. -/
theorem iterator_independence (d : DebugLookup) (n k : Nat) :
    d.items = ⟨none, d.input_buffer⟩ ∧
    (advanceFst^[n] (d.items, d.items)).2 = d.items ∧
    iterResults (advanceFst^[n] (d.items, d.items)).2 k =
      iterResults d.items k := by
  have h2 : ∀ m, (advanceFst^[m] (d.items, d.items)).2 = d.items := by
    intro m
    induction m with
    | zero => rfl
    | succ m ih =>
      rw [Function.iterate_succ_apply']
      simpa [advanceFst] using ih
  exact ⟨rfl, h2 n, by rw [h2 n]⟩

/-- Two iterator states that both fall through the entry phase (no entry,
no error there) produce the same call result: the remaining-input phase
only consults the carried current Set on a header-parse error, and then
only for the successor state, never for the result. -/
theorem nextLoop_fst_congr {cs cs' cs1 cs1' : Option (Reader × Header)}
    {rem : Reader}
    (h : entryStep cs rem = .inr cs1) (h' : entryStep cs' rem = .inr cs1')
    (fuel : Nat) :
    (nextLoop fuel cs rem).map Prod.fst =
      (nextLoop fuel cs' rem).map Prod.fst := by
  unfold nextLoop
  rw [h, h']
  cases hemp : rem.is_empty
  · simp only [hemp, Bool.false_eq_true, if_false]
    cases hph : PubStuffParser.parse_header rem with
    | mk res rem1 =>
      cases res with
      | error e => simp
      | ok set => cases fuel <;> simp
  · simp [hemp]

/-- C10: End-of-set without a sentinel — when the current Set's narrowed
cursor is exactly empty, the next advance returns exactly what a fresh
scan of the remaining input would return (it treats the Set as exhausted
and proceeds to the next Set's header), and in particular when no input
remains it returns iteration complete rather than an error. -/
theorem empty_set_cursor_accepted (hd : Header) (rem : Reader) :
    (LookupEntryIter.next ⟨some (⟨[]⟩, hd), rem⟩).1 =
      (LookupEntryIter.next ⟨none, rem⟩).1 ∧
    (rem.is_empty = true →
      LookupEntryIter.next ⟨some (⟨[]⟩, hd), rem⟩ = (.ok none, ⟨none, rem⟩)) := by
  constructor
  · simp only [LookupEntryIter.next]
    exact Option.fst_get_eq _ _
      (nextLoop_fst_congr
        (show entryStep (some (⟨[]⟩, hd)) rem = .inr (some (⟨[]⟩, hd)) by
          simp [entryStep, Reader.is_empty])
        (show entryStep none rem = .inr none from rfl) _)
  · intro hemp
    apply next_eq_of_nextLoop
    unfold nextLoop
    rw [show entryStep (some (⟨[]⟩, hd)) rem = .inr (some (⟨[]⟩, hd)) by
      simp [entryStep, Reader.is_empty]]
    simp [hemp]

/-- Witness for C10 at a concrete empty Set cursor and empty remaining
input. -/
theorem empty_set_cursor_accepted_witness :
    LookupEntryIter.next
        ⟨some (⟨[]⟩, Switch.new_header .Dwarf32 14 2 3 7), ⟨[]⟩⟩ =
      (.ok none, ⟨none, ⟨[]⟩⟩) :=
  (empty_set_cursor_accepted (Switch.new_header .Dwarf32 14 2 3 7) ⟨[]⟩).2 rfl

/-- C8: Leniency after the sentinel — reading the zero sentinel forces the
Set's cursor empty, so any trailing bytes inside the Set's declared length
after the sentinel are discarded unread: they produce no entry and no
error, and an advance that consumes such a Set ends the iteration cleanly
when nothing remains. -/
theorem sentinel_trailing_garbage_ignored (hd : Header) (garbage : List Nat) :
    PubStuffParser.parse_entry
        ⟨leBytes (Switch.format_from hd).wordSize 0 ++ garbage⟩ hd =
      (.ok none, ⟨[]⟩) ∧
    LookupEntryIter.next
        ⟨some (⟨leBytes (Switch.format_from hd).wordSize 0 ++ garbage⟩, hd),
         ⟨[]⟩⟩ =
      (.ok none, ⟨none, ⟨[]⟩⟩) := by
  have hw : Reader.read_word
      ⟨leBytes (Switch.format_from hd).wordSize 0 ++ garbage⟩
      (Switch.format_from hd) = .ok (0, ⟨garbage⟩) :=
    Reader.read_word_leBytes garbage (Nat.pos_pow_of_pos _ (by norm_num))
  have hpe : PubStuffParser.parse_entry
      ⟨leBytes (Switch.format_from hd).wordSize 0 ++ garbage⟩ hd =
      (.ok none, ⟨[]⟩) := by
    unfold PubStuffParser.parse_entry
    rw [hw]
    rfl
  refine ⟨hpe, ?_⟩
  have hne : (⟨leBytes (Switch.format_from hd).wordSize 0 ++ garbage⟩ :
      Reader).is_empty = false := by
    cases hf : Switch.format_from hd <;>
      simp [Reader.is_empty, Format.wordSize, leBytes]
  apply next_eq_of_nextLoop
  unfold nextLoop
  rw [show entryStep
      (some (⟨leBytes (Switch.format_from hd).wordSize 0 ++ garbage⟩, hd))
      ⟨[]⟩ = .inr (some (⟨[]⟩, hd)) by
    simp only [entryStep, hne, Bool.false_eq_true, if_false, hpe]]
  simp [Reader.is_empty]

/-- C6: Sentinel handling in `parse_entry` — the first read is one offset
word of the width given by the header's format tag; a zero offset forces
the cursor fully empty and produces no entry, a non-zero offset is followed
by a null-terminated name read whose outcome (entry built from the offset,
the name and the header, or the read's own error) is the result; and an
iterator whose current Set holds only the zero sentinel yields no entry
and proceeds exactly as a fresh scan of the remaining input (next Set or
completion). -/
theorem parse_entry_sentinel (input : Reader) (hd : Header) :
    (∀ inp1 : Reader,
      input.read_word (Switch.format_from hd) = .ok (0, inp1) →
      PubStuffParser.parse_entry input hd = (.ok none, inp1.empty) ∧
        (inp1.empty).is_empty = true) ∧
    (∀ (w : Nat) (inp1 : Reader),
      input.read_word (Switch.format_from hd) = .ok (w, inp1) → w ≠ 0 →
      PubStuffParser.parse_entry input hd =
        (match inp1.read_null_terminated_slice with
         | .error e => (.error e, inp1)
         | .ok (name, inp2) =>
           (.ok (some (Switch.new_entry w name hd)), inp2))) ∧
    (∀ rem : Reader,
      (LookupEntryIter.next
          ⟨some (⟨leBytes (Switch.format_from hd).wordSize 0⟩, hd), rem⟩).1 =
        (LookupEntryIter.next ⟨none, rem⟩).1) := by
  refine ⟨?_, ?_, ?_⟩
  · intro inp1 hw
    unfold PubStuffParser.parse_entry
    rw [hw]
    exact ⟨rfl, rfl⟩
  · intro w inp1 hw hnz
    unfold PubStuffParser.parse_entry
    rw [hw]
    simp only [if_neg hnz]
  · intro rem
    have hw0 : Reader.read_word
        ⟨leBytes (Switch.format_from hd).wordSize 0⟩
        (Switch.format_from hd) = .ok (0, ⟨[]⟩) := by
      have := Reader.read_word_leBytes (f := Switch.format_from hd) []
        (Nat.pos_pow_of_pos _ (by norm_num))
      simpa using this
    have hpe0 : PubStuffParser.parse_entry
        ⟨leBytes (Switch.format_from hd).wordSize 0⟩ hd =
        (.ok none, ⟨[]⟩) := by
      unfold PubStuffParser.parse_entry
      rw [hw0]
      rfl
    have hne : (⟨leBytes (Switch.format_from hd).wordSize 0⟩ :
        Reader).is_empty = false := by
      cases hf : Switch.format_from hd <;>
        simp [Reader.is_empty, Format.wordSize, leBytes]
    simp only [LookupEntryIter.next]
    exact Option.fst_get_eq _ _
      (nextLoop_fst_congr
        (show entryStep
            (some (⟨leBytes (Switch.format_from hd).wordSize 0⟩, hd)) rem =
            .inr (some (⟨[]⟩, hd)) by
          simp only [entryStep, hne, Bool.false_eq_true, if_false, hpe0])
        (show entryStep none rem = .inr none from rfl) _)

/-- Witness for C6: the zero word yields no entry and an emptied cursor;
a non-zero word followed by a null-terminated name yields the entry. -/
theorem parse_entry_sentinel_witness :
    (PubStuffParser.parse_entry ⟨[0, 0, 0, 0]⟩
        (Switch.new_header .Dwarf32 10 2 3 7) =
        (.ok none, Reader.empty ⟨[]⟩) ∧
      (Reader.empty (⟨[]⟩ : Reader)).is_empty = true) ∧
    PubStuffParser.parse_entry ⟨[5, 0, 0, 0, 104, 105, 0, 9]⟩
        (Switch.new_header .Dwarf32 10 2 3 7) =
      (.ok (some (Switch.new_entry 5 ⟨[104, 105]⟩
        (Switch.new_header .Dwarf32 10 2 3 7))), ⟨[9]⟩) :=
  ⟨(parse_entry_sentinel ⟨[0, 0, 0, 0]⟩
      (Switch.new_header .Dwarf32 10 2 3 7)).1 ⟨[]⟩ rfl,
   (parse_entry_sentinel ⟨[5, 0, 0, 0, 104, 105, 0, 9]⟩
      (Switch.new_header .Dwarf32 10 2 3 7)).2.1 5 ⟨[104, 105, 0, 9]⟩ rfl
      (by decide)⟩

/-- Extended-tag path of `parse_initial_length`: a 4-byte read of the
reserved marker `0xffffffff` followed by a successful 8-byte read yields
the 64-bit length and the extended format tag. -/
theorem parse_initial_length_ext {input input1 input2 : Reader} {L : Nat}
    (h32 : input.read_u32 = .ok (0xffffffff, input1))
    (h64 : input1.read_u64 = .ok (L, input2)) :
    parse_initial_length input = (.ok (L, .Dwarf64), input2) := by
  unfold parse_initial_length
  rw [h32]
  simp [h64]

/-- Success path of `PubStuffParser::parse_header`, assembled from the
successes of its five in-order reads. -/
theorem parse_header_ok {input input1 rest0 inp2 rest1 rest2 rest3 : Reader}
    {L : Nat} {f : Format} {io il : Nat}
    (hpil : parse_initial_length input = (.ok (L, f), input1))
    (hsplit : input1.split L = .ok (rest0, inp2))
    (hu16 : rest0.read_u16 = .ok (2, rest1))
    (hoff : Switch.parse_offset rest1 f = .ok (io, rest2))
    (hlen : rest2.read_word f = .ok (il, rest3)) :
    PubStuffParser.parse_header input =
      (.ok (rest3, Switch.new_header f L 2 io il), inp2) := by
  unfold PubStuffParser.parse_header
  rw [hpil]
  simp only [hsplit, hu16, hoff, hlen, ne_eq, if_neg]
  simp

/-- Success path of `PubStuffParser::parse_entry` for a non-zero offset
followed by a well-terminated name. -/
theorem parse_entry_ok {input inp1 inp2 name : Reader} {hd : Header}
    {w : Nat}
    (hw : input.read_word (Switch.format_from hd) = .ok (w, inp1))
    (hnz : w ≠ 0)
    (hnull : inp1.read_null_terminated_slice = .ok (name, inp2)) :
    PubStuffParser.parse_entry input hd =
      (.ok (some (Switch.new_entry w name hd)), inp2) := by
  unfold PubStuffParser.parse_entry
  rw [hw]
  simp only [if_neg hnz, hnull]

/-- C7: Extended-format width — a Set introduced by the reserved 4-byte
marker `0xffffffff` and an 8-byte length is parsed with the extended tag:
the version is followed by an 8-byte back-reference offset and an 8-byte
back-reference length, the narrowed cursor holds exactly the entry bytes,
and an entry offset under an extended-tag header is read as an 8-byte
field whose exact numeric value is preserved. -/
theorem extended_format_width (L off len v : Nat)
    (entries more nameBytes tail : List Nat) (hd : Header) :
    (L = 18 + entries.length → L < 2 ^ 64 → off < 2 ^ 64 → len < 2 ^ 64 →
      PubStuffParser.parse_header
          ⟨leBytes 4 0xffffffff ++ leBytes 8 L ++
            (leBytes 2 2 ++ leBytes 8 off ++ leBytes 8 len ++ entries) ++
            more⟩ =
        (.ok (⟨entries⟩, Switch.new_header .Dwarf64 L 2 off len),
         ⟨more⟩)) ∧
    (Switch.format_from hd = .Dwarf64 → v ≠ 0 → v < 2 ^ 64 →
      (∀ b ∈ nameBytes, b ≠ 0) →
      PubStuffParser.parse_entry ⟨leBytes 8 v ++ nameBytes ++ 0 :: tail⟩ hd =
        (.ok (some (Switch.new_entry v ⟨nameBytes⟩ hd)), ⟨tail⟩)) := by
  have hpow : (256 : Nat) ^ 8 = 2 ^ 64 := by norm_num
  constructor
  · intro hL hL64 hoff64 hlen64
    have h32 : Reader.read_u32
        ⟨leBytes 4 0xffffffff ++
          (leBytes 8 L ++
            ((leBytes 2 2 ++ (leBytes 8 off ++ (leBytes 8 len ++ entries))) ++
              more))⟩ =
        .ok (0xffffffff,
          ⟨leBytes 8 L ++
            ((leBytes 2 2 ++ (leBytes 8 off ++ (leBytes 8 len ++ entries))) ++
              more)⟩) :=
      Reader.readUint_leBytes _ (by norm_num)
    have h64 : Reader.read_u64
        ⟨leBytes 8 L ++
          ((leBytes 2 2 ++ (leBytes 8 off ++ (leBytes 8 len ++ entries))) ++
            more)⟩ =
        .ok (L,
          ⟨(leBytes 2 2 ++ (leBytes 8 off ++ (leBytes 8 len ++ entries))) ++
            more⟩) :=
      Reader.readUint_leBytes _ (by rw [hpow]; exact hL64)
    have hblen :
        (leBytes 2 2 ++ (leBytes 8 off ++ (leBytes 8 len ++ entries))).length
          = L := by
      simp [leBytes_length]
      omega
    have hsplit : Reader.split
        ⟨(leBytes 2 2 ++ (leBytes 8 off ++ (leBytes 8 len ++ entries))) ++
          more⟩ L =
        .ok (⟨leBytes 2 2 ++ (leBytes 8 off ++ (leBytes 8 len ++ entries))⟩,
          ⟨more⟩) := by
      have hsp := Reader.split_append
        (leBytes 2 2 ++ (leBytes 8 off ++ (leBytes 8 len ++ entries))) more
      rwa [hblen] at hsp
    have hu16 : Reader.read_u16
        ⟨leBytes 2 2 ++ (leBytes 8 off ++ (leBytes 8 len ++ entries))⟩ =
        .ok (2, ⟨leBytes 8 off ++ (leBytes 8 len ++ entries)⟩) :=
      Reader.readUint_leBytes _ (by norm_num)
    have hro : Switch.parse_offset
        ⟨leBytes 8 off ++ (leBytes 8 len ++ entries)⟩ .Dwarf64 =
        .ok (off, ⟨leBytes 8 len ++ entries⟩) := by
      simp only [Switch.parse_offset, Reader.read_word, Format.wordSize]
      exact Reader.readUint_leBytes _ (by rw [hpow]; exact hoff64)
    have hrl : Reader.read_word ⟨leBytes 8 len ++ entries⟩ .Dwarf64 =
        .ok (len, ⟨entries⟩) := by
      simp only [Reader.read_word, Format.wordSize]
      exact Reader.readUint_leBytes _ (by rw [hpow]; exact hlen64)
    exact parse_header_ok (parse_initial_length_ext h32 h64) hsplit hu16
      hro hrl
  · intro hf hnz hv64 hnb
    have hw : Reader.read_word ⟨leBytes 8 v ++ (nameBytes ++ 0 :: tail)⟩
        (Switch.format_from hd) = .ok (v, ⟨nameBytes ++ 0 :: tail⟩) := by
      rw [hf]
      exact Reader.readUint_leBytes _ (by rw [hpow]; exact hv64)
    exact parse_entry_ok hw hnz
      (Reader.read_null_terminated_slice_append tail hnb)

/-- Witness for C7 at concrete large values: an extended Set with no
entries and back references `2^40 + 7` and `2^33 + 5`, and an entry
whose 8-byte offset `2^35 + 9` survives exactly. -/
theorem extended_format_width_witness :
    PubStuffParser.parse_header
        ⟨leBytes 4 0xffffffff ++ leBytes 8 18 ++
          (leBytes 2 2 ++ leBytes 8 (2 ^ 40 + 7) ++ leBytes 8 (2 ^ 33 + 5) ++
            []) ++ [1, 2]⟩ =
      (.ok (⟨[]⟩,
        Switch.new_header .Dwarf64 18 2 (2 ^ 40 + 7) (2 ^ 33 + 5)),
       ⟨[1, 2]⟩) ∧
    PubStuffParser.parse_entry
        ⟨leBytes 8 (2 ^ 35 + 9) ++ [104, 105] ++ 0 :: [8]⟩
        (Switch.new_header .Dwarf64 18 2 (2 ^ 40 + 7) (2 ^ 33 + 5)) =
      (.ok (some (Switch.new_entry (2 ^ 35 + 9) ⟨[104, 105]⟩
        (Switch.new_header .Dwarf64 18 2 (2 ^ 40 + 7) (2 ^ 33 + 5)))),
       ⟨[8]⟩) :=
  ⟨(extended_format_width 18 (2 ^ 40 + 7) (2 ^ 33 + 5) 1 [] [1, 2] [] []
      (Switch.new_header .Dwarf64 18 2 (2 ^ 40 + 7) (2 ^ 33 + 5))).1
      rfl (by norm_num) (by norm_num) (by norm_num),
   (extended_format_width 18 (2 ^ 40 + 7) (2 ^ 33 + 5) (2 ^ 35 + 9) [] []
      [104, 105] [8]
      (Switch.new_header .Dwarf64 18 2 (2 ^ 40 + 7) (2 ^ 33 + 5))).2
      rfl (by norm_num) (by norm_num) (by decide)⟩

theorem Switch.parse_offset_error {r : Reader} {f : Format} {e : Error}
    (h : Switch.parse_offset r f = .error e) : e = .UnexpectedEof := by
  unfold Switch.parse_offset Reader.read_word at h
  exact Reader.readUint_error h

theorem Reader.read_word_error {r : Reader} {f : Format} {e : Error}
    (h : r.read_word f = .error e) : e = .UnexpectedEof := by
  unfold Reader.read_word at h
  exact Reader.readUint_error h

/-- C5: Version rejection — once the length prefix decodes and the 2-byte
version field is read successfully, `parse_header` results in the
`UnknownVersion` error exactly when the version field differs from 2; when
it equals 2 the check passes and the parse continues with the
back-reference offset and back-reference length reads, whose outcome is
the overall result. -/
theorem version_rejection (input input1 rest0 inp2 rest1 : Reader)
    (L : Nat) (f : Format) (v : Nat)
    (hpil : parse_initial_length input = (.ok (L, f), input1))
    (hsplit : input1.split L = .ok (rest0, inp2))
    (hu16 : rest0.read_u16 = .ok (v, rest1)) :
    ((PubStuffParser.parse_header input).1 = .error .UnknownVersion ↔
      v ≠ 2) ∧
    (v = 2 → PubStuffParser.parse_header input =
      (match Switch.parse_offset rest1 f with
       | .error e => (.error e, inp2)
       | .ok (io, rest2) =>
         match rest2.read_word f with
         | .error e => (.error e, inp2)
         | .ok (il, rest3) =>
           (.ok (rest3, Switch.new_header f L 2 io il), inp2))) := by
  by_cases hv : v = 2
  · subst hv
    have hbody : PubStuffParser.parse_header input =
        (match Switch.parse_offset rest1 f with
         | .error e => (.error e, inp2)
         | .ok (io, rest2) =>
           match rest2.read_word f with
           | .error e => (.error e, inp2)
           | .ok (il, rest3) =>
             (.ok (rest3, Switch.new_header f L 2 io il), inp2)) := by
      unfold PubStuffParser.parse_header
      rw [hpil]
      simp only [hsplit, hu16]
      rw [if_neg (by simp)]
    refine ⟨⟨fun habs => ?_, fun hne => absurd rfl hne⟩, fun _ => hbody⟩
    rw [hbody] at habs
    cases hpo : Switch.parse_offset rest1 f with
    | error e =>
      simp only [hpo] at habs
      have he := Switch.parse_offset_error hpo
      subst he
      simp at habs
    | ok w =>
      obtain ⟨io, rest2⟩ := w
      simp only [hpo] at habs
      cases hrw : rest2.read_word f with
      | error e =>
        simp only [hrw] at habs
        have he := Reader.read_word_error hrw
        subst he
        simp at habs
      | ok w2 =>
        obtain ⟨il, rest3⟩ := w2
        simp only [hrw] at habs
        simp at habs
  · have hbody : PubStuffParser.parse_header input =
        (.error .UnknownVersion, inp2) := by
      unfold PubStuffParser.parse_header
      rw [hpil]
      simp only [hsplit, hu16]
      rw [if_pos hv]
    exact ⟨⟨fun _ => hv, fun _ => by rw [hbody]⟩, fun h2 => absurd h2 hv⟩

/-- Witness for C5: on a well-formed single-Set version-2 buffer the parse
is not an `UnknownVersion` error and proceeds to the back-reference
fields; flipping the version byte to 3 produces exactly `UnknownVersion`. -/
theorem version_rejection_witness :
    ((PubStuffParser.parse_header
        ⟨[10, 0, 0, 0, 2, 0, 9, 0, 0, 0, 7, 0, 0, 0]⟩).1 =
      .error .UnknownVersion ↔ (2 : Nat) ≠ 2) ∧
    PubStuffParser.parse_header
        ⟨[10, 0, 0, 0, 2, 0, 9, 0, 0, 0, 7, 0, 0, 0]⟩ =
      (.ok (⟨[]⟩, Switch.new_header .Dwarf32 10 2 9 7), ⟨[]⟩) ∧
    (PubStuffParser.parse_header
        ⟨[10, 0, 0, 0, 3, 0, 9, 0, 0, 0, 7, 0, 0, 0]⟩).1 =
      .error .UnknownVersion :=
  ⟨(version_rejection ⟨[10, 0, 0, 0, 2, 0, 9, 0, 0, 0, 7, 0, 0, 0]⟩
      ⟨[2, 0, 9, 0, 0, 0, 7, 0, 0, 0]⟩ ⟨[2, 0, 9, 0, 0, 0, 7, 0, 0, 0]⟩
      ⟨[]⟩ ⟨[9, 0, 0, 0, 7, 0, 0, 0]⟩ 10 .Dwarf32 2 rfl rfl rfl).1,
   (version_rejection ⟨[10, 0, 0, 0, 2, 0, 9, 0, 0, 0, 7, 0, 0, 0]⟩
      ⟨[2, 0, 9, 0, 0, 0, 7, 0, 0, 0]⟩ ⟨[2, 0, 9, 0, 0, 0, 7, 0, 0, 0]⟩
      ⟨[]⟩ ⟨[9, 0, 0, 0, 7, 0, 0, 0]⟩ 10 .Dwarf32 2 rfl rfl rfl).2 rfl,
   (version_rejection ⟨[10, 0, 0, 0, 3, 0, 9, 0, 0, 0, 7, 0, 0, 0]⟩
      ⟨[3, 0, 9, 0, 0, 0, 7, 0, 0, 0]⟩ ⟨[3, 0, 9, 0, 0, 0, 7, 0, 0, 0]⟩
      ⟨[]⟩ ⟨[9, 0, 0, 0, 7, 0, 0, 0]⟩ 10 .Dwarf32 3 rfl rfl rfl).1.mpr
      (by decide)⟩

theorem Reader.read_u32_eq (r : Reader) : r.read_u32 = r.readUint 4 :=
  rfl

theorem Reader.read_u16_eq (r : Reader) : r.read_u16 = r.readUint 2 :=
  rfl

theorem Switch.parse_offset_eq (r : Reader) (f : Format) :
    Switch.parse_offset r f = r.readUint f.wordSize :=
  rfl

theorem Reader.read_word_eq (r : Reader) (f : Format) :
    r.read_word f = r.readUint f.wordSize :=
  rfl

theorem Reader.readUint_drop {r : Reader} {n v : Nat} {r1 : Reader}
    (h : r.readUint n = .ok (v, r1)) :
    r1.data = r.data.drop n ∧ n ≤ r.data.length := by
  unfold Reader.readUint at h
  split at h
  · simp_all
  · rename_i bs r2 heq
    obtain ⟨-, hdrop, hle⟩ := Reader.readBytes_eq heq
    simp only [Except.ok.injEq, Prod.mk.injEq] at h
    obtain ⟨-, h2⟩ := h
    subst h2
    exact ⟨hdrop, hle⟩

theorem parse_initial_length_decomp {input input1 : Reader} {L : Nat}
    {f : Format}
    (h : parse_initial_length input = (.ok (L, f), input1)) :
    ∃ pre, input.data = pre ++ input1.data := by
  unfold parse_initial_length at h
  split at h
  · simp_all
  · rename_i v r1 heq
    rw [Reader.read_u32_eq] at heq
    have hd1 := (Reader.readUint_drop heq).1
    split at h
    · split at h
      · simp_all
      · rename_i v2 r2 heq2
        rw [show Reader.read_u64 r1 = r1.readUint 8 from rfl] at heq2
        have hd2 := (Reader.readUint_drop heq2).1
        simp only [Prod.mk.injEq] at h
        obtain ⟨-, h4⟩ := h
        subst h4
        refine ⟨input.data.take 12, ?_⟩
        rw [hd2, hd1, List.drop_drop]
        exact (List.take_append_drop 12 input.data).symm
    · simp only [Prod.mk.injEq] at h
      obtain ⟨-, h4⟩ := h
      subst h4
      refine ⟨input.data.take 4, ?_⟩
      rw [hd1]
      exact (List.take_append_drop 4 input.data).symm

/-- Success decomposition of `parse_header`: the input splits into the
consumed length prefix, the Set's fixed header fields, the narrowed entry
cursor, and the remaining input; the fixed fields and the entry cursor
together are exactly the declared `set_length` bytes. -/
theorem parse_header_decomp {input rest : Reader} {hd : Header}
    {rem : Reader}
    (heq : PubStuffParser.parse_header input = (.ok (rest, hd), rem)) :
    ∃ pre mid, input.data = pre ++ (mid ++ (rest.data ++ rem.data)) ∧
      mid.length + rest.data.length = hd.set_length ∧
      mid.length = 2 + 2 * hd.format.wordSize := by
  unfold PubStuffParser.parse_header at heq
  split at heq
  · simp_all
  · rename_i L f input1 hpil
    obtain ⟨pre1, hpre1⟩ := parse_initial_length_decomp hpil
    split at heq
    · simp_all
    · rename_i rest0 inp2 hsplit
      obtain ⟨htake, hdropi, hle⟩ := Reader.split_eq hsplit
      have hr0len : rest0.data.length = L := by
        rw [htake, List.length_take]
        omega
      split at heq
      · simp_all
      · rename_i v rest1 hu16
        rw [Reader.read_u16_eq] at hu16
        have h16len := Reader.readUint_length hu16
        have h16drop := (Reader.readUint_drop hu16).1
        split at heq
        · exact absurd heq (by simp)
        · split at heq
          · simp_all
          · rename_i io rest2 hoff
            rw [Switch.parse_offset_eq] at hoff
            have hofflen := Reader.readUint_length hoff
            have hoffdrop := (Reader.readUint_drop hoff).1
            split at heq
            · simp_all
            · rename_i il rest3 hlen
              rw [Reader.read_word_eq] at hlen
              have hlenlen := Reader.readUint_length hlen
              have hlendrop := (Reader.readUint_drop hlen).1
              simp only [Prod.mk.injEq, Except.ok.injEq] at heq
              obtain ⟨⟨hrest, hhd⟩, hrem⟩ := heq
              rw [← hrest, ← hhd, ← hrem]
              have hsplit0 : input1.data = rest0.data ++ inp2.data := by
                rw [htake, hdropi]
                exact (List.take_append_drop L input1.data).symm
              have hr3 : rest3.data =
                  rest0.data.drop (2 + 2 * f.wordSize) := by
                rw [hlendrop, hoffdrop, h16drop, List.drop_drop,
                  List.drop_drop]
                congr 1
                omega
              refine ⟨pre1, rest0.data.take (2 + 2 * f.wordSize), ?_, ?_, ?_⟩
              · rw [hpre1, hsplit0, hr3]
                rw [← List.append_assoc
                  (rest0.data.take (2 + 2 * f.wordSize))]
                rw [List.take_append_drop]
              · have hmidlen :
                    (rest0.data.take (2 + 2 * f.wordSize)).length =
                      2 + 2 * f.wordSize := by
                  rw [List.length_take]
                  omega
                simp only [Switch.new_header, hmidlen]
                omega
              · simp only [Switch.new_header]
                rw [List.length_take]
                omega

/-- C4: Set narrowing — on success, `parse_header` has consumed the length
prefix and sliced off exactly the declared `set_length` bytes: the fixed
header fields plus the returned narrowed cursor account for all of them,
and the narrowed cursor's bytes are disjoint from (and precede) the
remaining input holding the following Sets; `parse_header` fails with a
decode error when the input after the length prefix is shorter than the
declared length, when the version check fails, and when the fixed
header-field reads run past the end of the narrowed slice. -/
theorem set_narrowing (input : Reader) :
    (∀ (rest : Reader) (hd : Header) (rem : Reader),
      PubStuffParser.parse_header input = (.ok (rest, hd), rem) →
      ∃ pre mid, input.data = pre ++ (mid ++ (rest.data ++ rem.data)) ∧
        mid.length + rest.data.length = hd.set_length ∧
        mid.length = 2 + 2 * hd.format.wordSize) ∧
    (∀ (L : Nat) (f : Format) (input1 : Reader),
      parse_initial_length input = (.ok (L, f), input1) →
      input1.data.length < L →
      (PubStuffParser.parse_header input).1 = .error .UnexpectedEof) ∧
    (∀ (L : Nat) (f : Format) (input1 rest0 inp2 rest1 : Reader) (v : Nat),
      parse_initial_length input = (.ok (L, f), input1) →
      input1.split L = .ok (rest0, inp2) →
      rest0.read_u16 = .ok (v, rest1) → v ≠ 2 →
      (PubStuffParser.parse_header input).1 = .error .UnknownVersion) ∧
    (∀ (L : Nat) (f : Format) (input1 rest0 inp2 : Reader),
      parse_initial_length input = (.ok (L, f), input1) →
      input1.split L = .ok (rest0, inp2) →
      rest0.data.length < 2 + 2 * f.wordSize →
      ∃ e, (PubStuffParser.parse_header input).1 = .error e) := by
  refine ⟨fun rest hd rem heq => parse_header_decomp heq, ?_, ?_, ?_⟩
  · intro L f input1 hpil hlt
    have hsp : input1.split L = .error .UnexpectedEof := by
      unfold Reader.split
      rw [if_neg (by omega)]
    unfold PubStuffParser.parse_header
    rw [hpil]
    simp only [hsp]
  · intro L f input1 rest0 inp2 rest1 v hpil hsplit hu16 hv
    unfold PubStuffParser.parse_header
    rw [hpil]
    simp only [hsplit, hu16]
    rw [if_pos hv]
  · intro L f input1 rest0 inp2 hpil hsplit hlt
    unfold PubStuffParser.parse_header
    rw [hpil]
    simp only [hsplit]
    cases hu : rest0.read_u16 with
    | error e =>
      simp only [hu]
      exact ⟨e, rfl⟩
    | ok w =>
      obtain ⟨v, rest1⟩ := w
      simp only [hu]
      rw [Reader.read_u16_eq] at hu
      have h16 := Reader.readUint_length hu
      by_cases hv : v = 2
      · subst hv
        rw [if_neg (by simp)]
        cases hpo : Switch.parse_offset rest1 f with
        | error e =>
          simp only [hpo]
          exact ⟨e, rfl⟩
        | ok w2 =>
          obtain ⟨io, rest2⟩ := w2
          simp only [hpo]
          rw [Switch.parse_offset_eq] at hpo
          have hol := Reader.readUint_length hpo
          cases hrw : rest2.read_word f with
          | error e =>
            simp only [hrw]
            exact ⟨e, rfl⟩
          | ok w3 =>
            obtain ⟨il, rest3⟩ := w3
            rw [Reader.read_word_eq] at hrw
            have hll := Reader.readUint_length hrw
            omega
      · rw [if_pos hv]
        exact ⟨.UnknownVersion, rfl⟩

/-- Witness for C4: the success decomposition at the two-Set buffer (Set A
narrows to its 23 entry bytes, Set B's 28 bytes stay in the remaining
input), and the three failure conditions at a truncated declared length,
a version-3 Set, and a Set too short for its fixed header fields. -/
theorem set_narrowing_witness :
    (∃ pre mid, twoSetBuffer =
      pre ++ (mid ++
        ([0x10, 0, 0, 0, 97, 108, 112, 104, 97, 0,
          0x20, 0, 0, 0, 98, 101, 116, 97, 0, 0, 0, 0, 0] ++
         [0x18, 0, 0, 0, 2, 0, 0x66, 0, 0, 0, 0x77, 0, 0, 0,
          0x30, 0, 0, 0, 103, 97, 109, 109, 97, 0, 0, 0, 0, 0])) ∧
      mid.length +
        ([0x10, 0, 0, 0, 97, 108, 112, 104, 97, 0,
          0x20, 0, 0, 0, 98, 101, 116, 97, 0, 0, 0, 0, 0] :
            List Nat).length =
        (Switch.new_header .Dwarf32 33 2 0x44 0x55).set_length ∧
      mid.length =
        2 + 2 * (Switch.new_header .Dwarf32 33 2 0x44 0x55).format.wordSize) ∧
    (PubStuffParser.parse_header ⟨[255, 0, 0, 0, 1, 2]⟩).1 =
      .error .UnexpectedEof ∧
    (PubStuffParser.parse_header
        ⟨[10, 0, 0, 0, 3, 0, 9, 0, 0, 0, 7, 0, 0, 0]⟩).1 =
      .error .UnknownVersion ∧
    ∃ e, (PubStuffParser.parse_header ⟨[4, 0, 0, 0, 2, 0, 0, 0]⟩).1 =
      .error e :=
  ⟨(set_narrowing ⟨twoSetBuffer⟩).1
      ⟨[0x10, 0, 0, 0, 97, 108, 112, 104, 97, 0,
        0x20, 0, 0, 0, 98, 101, 116, 97, 0, 0, 0, 0, 0]⟩
      (Switch.new_header .Dwarf32 33 2 0x44 0x55)
      ⟨[0x18, 0, 0, 0, 2, 0, 0x66, 0, 0, 0, 0x77, 0, 0, 0,
        0x30, 0, 0, 0, 103, 97, 109, 109, 97, 0, 0, 0, 0, 0]⟩ rfl,
   (set_narrowing ⟨[255, 0, 0, 0, 1, 2]⟩).2.1 255 .Dwarf32 ⟨[1, 2]⟩ rfl
      (by decide),
   (set_narrowing ⟨[10, 0, 0, 0, 3, 0, 9, 0, 0, 0, 7, 0, 0, 0]⟩).2.2.1
      10 .Dwarf32 ⟨[3, 0, 9, 0, 0, 0, 7, 0, 0, 0]⟩
      ⟨[3, 0, 9, 0, 0, 0, 7, 0, 0, 0]⟩ ⟨[]⟩ ⟨[9, 0, 0, 0, 7, 0, 0, 0]⟩ 3
      rfl rfl rfl (by decide),
   (set_narrowing ⟨[4, 0, 0, 0, 2, 0, 0, 0]⟩).2.2.2 4 .Dwarf32
      ⟨[2, 0, 0, 0]⟩ ⟨[2, 0, 0, 0]⟩ ⟨[]⟩ rfl rfl (by decide)⟩

/-- Bytes still held by the current Set's narrowed cursor, if any. -/
def csLen : Option (Reader × Header) → Nat
  | some (r, _) => r.data.length
  | none => 0

/-- Total un-consumed bytes an iterator state can still read: the current
Set's cursor plus the remaining input. -/
def totalBytes (it : LookupEntryIter) : Nat :=
  csLen it.current_set + it.remaining_input.data.length

/-- Whether an advance result carries an entry (as opposed to iteration
complete or a decode error). -/
def isEntry : Except Error (Option Entry) → Bool
  | .ok (some _) => true
  | _ => false

theorem isEntry_true_iff {r : Except Error (Option Entry)} :
    isEntry r = true ↔ ∃ e, r = .ok (some e) := by
  cases r with
  | error e => simp [isEntry]
  | ok o => cases o <;> simp [isEntry]

theorem parse_header_total {input rest : Reader} {hd : Header}
    {rem : Reader}
    (heq : PubStuffParser.parse_header input = (.ok (rest, hd), rem)) :
    rest.data.length + rem.data.length < input.data.length := by
  obtain ⟨pre, mid, hdec, hlen, hmid⟩ := parse_header_decomp heq
  have hL : input.data.length =
      pre.length + (mid.length + (rest.data.length + rem.data.length)) := by
    rw [hdec]
    simp [List.length_append]
  have hw := Format.wordSize_pos hd.format
  omega

theorem parse_entry_some_shrinks {input : Reader} {hd : Header} {e : Entry}
    {input1 : Reader}
    (h : PubStuffParser.parse_entry input hd = (.ok (some e), input1)) :
    input1.data.length < input.data.length := by
  unfold PubStuffParser.parse_entry at h
  split at h
  · simp_all
  · rename_i w inp1 hw
    rw [Reader.read_word_eq] at hw
    have hwlen := Reader.readUint_length hw
    have hwpos := Format.wordSize_pos (Switch.format_from hd)
    split at h
    · simp_all
    · split at h
      · simp_all
      · rename_i name inp2 hnull
        have hnl := Reader.read_null_terminated_slice_shrinks hnull
        simp only [Prod.mk.injEq, Except.ok.injEq] at h
        obtain ⟨-, h2⟩ := h
        subst h2
        omega

theorem entryStep_inl_entry {cs : Option (Reader × Header)} {rem : Reader}
    {e : Entry} {cs1 : Option (Reader × Header)} {rem1 : Reader}
    (hstep : entryStep cs rem = .inl (.ok (some e), cs1, rem1)) :
    csLen cs1 + rem1.data.length < csLen cs + rem.data.length := by
  unfold entryStep at hstep
  split at hstep
  · rename_i input header
    split at hstep
    · simp_all
    · split at hstep
      · simp_all
      · rename_i entry inp1 hpe
        simp only [Sum.inl.injEq, Prod.mk.injEq] at hstep
        obtain ⟨-, h2, h3⟩ := hstep
        subst h2
        subst h3
        simp only [csLen]
        have := parse_entry_some_shrinks hpe
        omega
      · simp_all
  · simp_all

theorem nextLoop_entry_shrinks : ∀ (fuel : Nat)
    {cs : Option (Reader × Header)} {rem : Reader} {e : Entry}
    {cs1 : Option (Reader × Header)} {rem1 : Reader},
    nextLoop fuel cs rem = some (.ok (some e), cs1, rem1) →
    csLen cs1 + rem1.data.length < csLen cs + rem.data.length := by
  intro fuel
  induction fuel with
  | zero =>
    intro cs rem e cs1 rem1 h
    unfold nextLoop at h
    split at h
    · rename_i res hstep
      simp only [Option.some.injEq] at h
      rw [h] at hstep
      exact entryStep_inl_entry hstep
    · rename_i cs2 hstep
      split at h
      · simp_all
      · split at h
        · simp_all
        · rename_i set rem2 hph
          exact Option.noConfusion h
  | succ f ih =>
    intro cs rem e cs1 rem1 h
    unfold nextLoop at h
    split at h
    · rename_i res hstep
      simp only [Option.some.injEq] at h
      rw [h] at hstep
      exact entryStep_inl_entry hstep
    · rename_i cs2 hstep
      split at h
      · simp_all
      · split at h
        · simp_all
        · rename_i set rem2 hph
          obtain ⟨rst, hdr⟩ := set
          have hrec : nextLoop f (some (rst, hdr)) rem2 =
              some (.ok (some e), cs1, rem1) := h
          have h2 := ih hrec
          have h3 := parse_header_total hph
          have hcs : csLen (some (rst, hdr)) = rst.data.length := rfl
          rw [hcs] at h2
          omega

theorem next_entry_shrinks {it : LookupEntryIter} {e : Entry}
    {it1 : LookupEntryIter}
    (h : it.next = (.ok (some e), it1)) :
    totalBytes it1 < totalBytes it := by
  have hsome := nextLoop_isSome (it.remaining_input.data.length + 1)
    it.current_set it.remaining_input (Nat.lt_succ_self _)
  obtain ⟨v, hv⟩ := Option.isSome_iff_exists.mp hsome
  obtain ⟨r, cs1, rem1⟩ := v
  have hnext := next_eq_of_nextLoop hv
  rw [hnext] at h
  simp only [Prod.mk.injEq] at h
  obtain ⟨hr, hit⟩ := h
  rw [hr] at hv
  have hlt := nextLoop_entry_shrinks _ hv
  rw [← hit]
  simpa [totalBytes] using hlt

/-- C3 (amended): the loop inside a single `next` call terminates with
fuel bounded by the remaining input's length, and repeated calls reach a
non-entry result (iteration complete or a decode error): there is a call
index `k`, at most the iterator's total unread byte count, whose result is
not an entry while every earlier call produced an entry — so the
terminal result arrives within (number of entries yielded) + 1 calls,
which is at most total entry count + Set count + 1. -/
theorem advance_reaches_terminal (it : LookupEntryIter) :
    (nextLoop (it.remaining_input.data.length + 1) it.current_set
      it.remaining_input).isSome = true ∧
    ∃ k, k ≤ totalBytes it ∧ isEntry (iterResults it k) = false ∧
      ∀ j, j < k → isEntry (iterResults it j) = true := by
  refine ⟨nextLoop_isSome _ _ _ (Nat.lt_succ_self _), ?_⟩
  suffices H : ∀ (N : Nat) (s : LookupEntryIter), totalBytes s ≤ N →
      ∃ k, k ≤ totalBytes s ∧ isEntry (iterResults s k) = false ∧
        ∀ j, j < k → isEntry (iterResults s j) = true by
    exact H (totalBytes it) it le_rfl
  intro N
  induction N with
  | zero =>
    intro s hN
    by_cases h0 : isEntry (iterResults s 0) = true
    · obtain ⟨e, he⟩ := isEntry_true_iff.mp h0
      cases hnn : s.next with
      | mk r it2 =>
        have hr : r = .ok (some e) := by
          have h01 : iterResults s 0 = s.next.1 := rfl
          rw [h01, hnn] at he
          exact he
        subst hr
        have hlt := next_entry_shrinks hnn
        omega
    · exact ⟨0, Nat.zero_le _, by simpa using h0,
        fun j hj => absurd hj (Nat.not_lt_zero j)⟩
  | succ N ih =>
    intro s hN
    by_cases h0 : isEntry (iterResults s 0) = true
    · obtain ⟨e, he⟩ := isEntry_true_iff.mp h0
      cases hnn : s.next with
      | mk r it2 =>
        have hr : r = .ok (some e) := by
          have h01 : iterResults s 0 = s.next.1 := rfl
          rw [h01, hnn] at he
          exact he
        subst hr
        have hlt := next_entry_shrinks hnn
        obtain ⟨k, hk1, hk2, hk3⟩ := ih it2 (by omega)
        refine ⟨k + 1, by omega, ?_, ?_⟩
        · show isEntry (iterResults s.next.2 k) = false
          rw [hnn]
          exact hk2
        · intro j hj
          cases j with
          | zero => exact h0
          | succ j1 =>
            show isEntry (iterResults s.next.2 j1) = true
            rw [hnn]
            exact hk3 j1 (by omega)
    · exact ⟨0, Nat.zero_le _, by simpa using h0,
        fun j hj => absurd hj (Nat.not_lt_zero j)⟩

/-- Witness for C3 at the concrete two-Set buffer: a fresh iterator
reaches a non-entry result within its byte budget, with entries on every
earlier call. -/
theorem advance_reaches_terminal_witness :
    ∃ k, k ≤ totalBytes (DebugLookup.items ⟨⟨twoSetBuffer⟩⟩) ∧
      isEntry (iterResults (DebugLookup.items ⟨⟨twoSetBuffer⟩⟩) k) = false ∧
      ∀ j, j < k →
        isEntry (iterResults (DebugLookup.items ⟨⟨twoSetBuffer⟩⟩) j) =
          true :=
  (advance_reaches_terminal (DebugLookup.items ⟨⟨twoSetBuffer⟩⟩)).2

/-- C3 counterexample: the empty buffer holds zero Sets (any header parse
on it fails immediately) and zero entries, so the claimed call bound
"total entry count + Set count" is 0 — yet observing iteration complete
still requires one call to `next`, which is the call that returns
`Ok none`. -/
theorem advance_call_bound_empty_buffer :
    (PubStuffParser.parse_header ⟨[]⟩).1 = .error .UnexpectedEof ∧
    (DebugLookup.items ⟨⟨[]⟩⟩).next = (.ok none, ⟨none, ⟨[]⟩⟩) :=
  ⟨rfl, rfl⟩

end Gimli
